import Mathlib

/-!
Verification development for the Obsidian Bases weekly-calendar plugin
(TPS-Calendar-Obsidian).  The TypeScript sources are shallowly embedded:

* JavaScript `Date` objects are modelled by `JSDate`, a record of the local
  calendar fields exposed by the getters the code uses (`getFullYear`,
  `getMonth`, `getDate`, `getHours`, `getMinutes`, plus seconds and
  milliseconds).  `JSDate.getTime` computes the epoch-millisecond value from
  those fields through the standard civil-calendar day count; the model fixes
  the local timezone offset to zero, consistent with the code never performing
  timezone conversion.
* JavaScript numbers are modelled by `ℚ` where fractional values matter
  (zoom factors, condense levels, `Math.round`) and by `Nat`/`Int` where the
  code only ever works with integers.
* String-producing code (template literals, `padStart`) is modelled with
  executable functions over `String`/`List Char`; `natToString` models
  JavaScript decimal rendering of a non-negative integer.
-/

/-! ## JavaScript number-to-string and padding -/

/-- Reversed base-10 digit list of a natural number, with explicit fuel so the
definition is structurally recursive (fuel `n` always suffices). -/
def digitsRevAux : Nat → Nat → List Nat
  | 0, _ => []
  | fuel + 1, n => if n = 0 then [] else n % 10 :: digitsRevAux fuel (n / 10)

/-- Reversed base-10 digit list of a natural number. -/
def digitsRev (n : Nat) : List Nat :=
  digitsRevAux n n

/-- JavaScript `String(n)` for a non-negative integer `n`: standard decimal
notation, no sign, no leading zeros (and `"0"` for zero). -/
def natToString (n : Nat) : String :=
  if n = 0 then "0" else String.mk ((digitsRev n).reverse.map Nat.digitChar)

/-- Value of a reversed digit list, used to invert `digitsRev`. -/
def ofDigitsRev : List Nat → Nat
  | [] => 0
  | d :: t => d + 10 * ofDigitsRev t

theorem ofDigitsRev_digitsRevAux (fuel : Nat) :
    ∀ n, n ≤ fuel → ofDigitsRev (digitsRevAux fuel n) = n := by
  induction fuel with
  | zero => intro n hn; interval_cases n; simp [digitsRevAux, ofDigitsRev]
  | succ f ih =>
    intro n hn
    by_cases h0 : n = 0
    · simp [digitsRevAux, h0, ofDigitsRev]
    · have hdiv : n / 10 ≤ f := by
        have : n / 10 < n := Nat.div_lt_self (Nat.pos_of_ne_zero h0) (by omega)
        omega
      simp only [digitsRevAux, h0, if_false, ofDigitsRev, ih (n / 10) hdiv]
      omega

theorem ofDigitsRev_digitsRev (n : Nat) : ofDigitsRev (digitsRev n) = n :=
  ofDigitsRev_digitsRevAux n n (le_refl n)

theorem digitsRev_injective : Function.Injective digitsRev := by
  intro a b h
  have := ofDigitsRev_digitsRev a
  rw [h, ofDigitsRev_digitsRev] at this
  omega

theorem digitsRevAux_lt (fuel : Nat) :
    ∀ n, ∀ d ∈ digitsRevAux fuel n, d < 10 := by
  induction fuel with
  | zero => intro n d hd; simp [digitsRevAux] at hd
  | succ f ih =>
    intro n d hd
    by_cases h0 : n = 0
    · simp [digitsRevAux, h0] at hd
    · simp only [digitsRevAux, h0, if_false, List.mem_cons] at hd
      rcases hd with h | h
      · omega
      · exact ih (n / 10) d h

theorem digitsRev_lt (n : Nat) : ∀ d ∈ digitsRev n, d < 10 :=
  digitsRevAux_lt n n

/-- Decode a digit character back to its value. -/
def charToDigit (c : Char) : Nat :=
  c.toNat - 48

theorem charToDigit_digitChar (d : Nat) (hd : d < 10) :
    charToDigit (Nat.digitChar d) = d := by
  interval_cases d <;> decide

/-- Decode a decimal string back to its value; left inverse of `natToString`. -/
def decodeNatString (s : String) : Nat :=
  ofDigitsRev ((s.data.map charToDigit).reverse)

theorem decodeNatString_natToString (n : Nat) :
    decodeNatString (natToString n) = n := by
  by_cases h0 : n = 0
  · simp [h0, natToString, decodeNatString, ofDigitsRev, charToDigit]
  · unfold natToString decodeNatString
    simp only [h0, if_false]
    have hmap : ((digitsRev n).reverse.map Nat.digitChar).map charToDigit =
        (digitsRev n).reverse := by
      rw [List.map_map]
      have : ∀ d ∈ (digitsRev n).reverse, (charToDigit ∘ Nat.digitChar) d = id d := by
        intro d hd
        exact charToDigit_digitChar d (digitsRev_lt n d (List.mem_reverse.mp hd))
      rw [List.map_congr_left this, List.map_id]
    show ofDigitsRev ((((digitsRev n).reverse.map Nat.digitChar).map charToDigit).reverse) = n
    rw [hmap, List.reverse_reverse, ofDigitsRev_digitsRev]

theorem natToString_injective : Function.Injective natToString := by
  intro a b h
  have ha := decodeNatString_natToString a
  rw [h, decodeNatString_natToString] at ha
  omega

/-- JavaScript `s.padStart(2, "0")`. -/
def jsPadStart2 (s : String) : String :=
  if 2 ≤ s.length then s else String.mk (List.replicate (2 - s.length) '0') ++ s

/-- `String(n).padStart(2, "0")` for a natural number, the padding idiom used
throughout the source for month/day/hour/minute components. -/
def pad2 (n : Nat) : String :=
  jsPadStart2 (natToString n)

/-! ## JavaScript `Date` model -/

/-- Local calendar-field view of a JavaScript `Date`, with the accessors the
source uses.  `month0` is the zero-based month of `getMonth()`. -/
structure JSDate where
  year : Nat
  month0 : Nat
  day : Nat
  hour : Nat
  minute : Nat
  second : Nat
  ms : Nat
  deriving DecidableEq, Repr

/-- Field ranges guaranteed by the JavaScript `Date` representation. -/
def JSDate.Valid (d : JSDate) : Prop :=
  1 ≤ d.month0 + 1 ∧ d.month0 + 1 ≤ 12 ∧ 1 ≤ d.day ∧ d.day ≤ 31 ∧
    d.hour < 24 ∧ d.minute < 60 ∧ d.second < 60 ∧ d.ms < 1000

instance (d : JSDate) : Decidable d.Valid := by
  unfold JSDate.Valid
  infer_instance

/-- Days since 0000-03-01 of the civil date `y-m-d` (1-based month), for CE
years; the standard era/year-of-era day count used to realize `Date.getTime`. -/
def civilToDays (y m d : Nat) : Nat :=
  let yShift : Nat := if m ≤ 2 then y - 1 else y
  let era : Nat := yShift / 400
  let yoe : Nat := yShift % 400
  let mp : Nat := if 2 < m then m - 3 else m + 9
  let doy : Nat := (153 * mp + 2) / 5 + d - 1
  let doe : Nat := yoe * 365 + yoe / 4 - yoe / 100 + doy
  era * 146097 + doe

/-- Civil date (1-based month) of a day count since 0000-03-01. -/
def civilFromDays (z : Nat) : Nat × Nat × Nat :=
  let era : Nat := z / 146097
  let doe : Nat := z % 146097
  let yoe : Nat := (doe - doe / 1460 + doe / 36524 - doe / 146096) / 365
  let y : Nat := yoe + era * 400
  let doy : Nat := doe - (365 * yoe + yoe / 4 - yoe / 100)
  let mp : Nat := (5 * doy + 2) / 153
  let d : Nat := doy - (153 * mp + 2) / 5 + 1
  let m : Nat := if mp < 10 then mp + 3 else mp - 9
  (if m ≤ 2 then y + 1 else y, m, d)

/-- Day count of the Unix epoch 1970-01-01 in the `civilToDays` scale. -/
def epochCivilDays : Nat :=
  civilToDays 1970 1 1

/-- `Date.prototype.getTime`: epoch milliseconds, with the model's local
timezone offset fixed at zero. -/
def JSDate.getTime (d : JSDate) : Int :=
  ((civilToDays d.year (d.month0 + 1) d.day : Int) - (epochCivilDays : Int)) * 86400000 +
    (d.hour : Int) * 3600000 + (d.minute : Int) * 60000 + (d.second : Int) * 1000 + (d.ms : Int)

/-- `new Date(t)` for a non-negative epoch-millisecond value `t` (the model is
defined for instants at or after the epoch). -/
def JSDate.fromTime (t : Int) : JSDate :=
  let tn := t.toNat
  let days := tn / 86400000
  let c := civilFromDays (days + epochCivilDays)
  { year := c.1
    month0 := c.2.1 - 1
    day := c.2.2
    hour := tn / 3600000 % 24
    minute := tn / 60000 % 60
    second := tn / 1000 % 60
    ms := tn % 1000 }

/-- `setHours(0, 0, 0, 0)`: zero the time-of-day fields, keeping the civil day. -/
def JSDate.setMidnight (d : JSDate) : JSDate :=
  { d with hour := 0, minute := 0, second := 0, ms := 0 }

/-! ## `src/utils.ts` -/

def MIN_SLOT_ZOOM : ℚ := 0.1

def MAX_SLOT_ZOOM : ℚ := 0.5

def BASE_SLOT_HEIGHT : ℚ := 72

def MAX_CONDENSE_LEVEL : ℚ := 220

def DEFAULT_CONDENSE_LEVEL : ℚ := 80

def DEFAULT_PRIORITY_COLOR_MAP : List (String × String) :=
  [("low", "#9ca3af"), ("normal", "#60a5fa"), ("medium", "#facc15"), ("high", "#f87171")]

def DEFAULT_STATUS_STYLE_MAP : List (String × String) :=
  [("open", "normal"), ("complete", "strikethrough"), ("wont-do", "strikethrough"),
    ("working", "bold"), ("blocked", "italic")]

/-- `utils.ts` `formatDateTimeForFrontmatter`: local `YYYY-MM-DD HH:MM` with
`String(...).padStart(2, "0")` on month, day, hours and minutes. -/
def formatDateTimeForFrontmatter (date : JSDate) : String :=
  natToString date.year ++ "-" ++ pad2 (date.month0 + 1) ++ "-" ++ pad2 date.day ++
    " " ++ pad2 date.hour ++ ":" ++ pad2 date.minute

/-- `utils.ts` `calculateSlotZoom`. -/
def calculateSlotZoom (condenseLevel : ℚ) : ℚ :=
  let safeLevel := max 0 (min MAX_CONDENSE_LEVEL condenseLevel)
  let range := MAX_SLOT_ZOOM - MIN_SLOT_ZOOM
  MAX_SLOT_ZOOM - safeLevel / MAX_CONDENSE_LEVEL * range

/-- `calendar-view.tsx` `normalizeCondenseLevel`:
`Math.max(0, Math.min(MAX_CONDENSE_LEVEL, value))`. -/
def normalizeCondenseLevel (value : ℚ) : ℚ :=
  max 0 (min MAX_CONDENSE_LEVEL value)

/-! ## Claims C6 and C7: condense-level normalization and slot zoom -/

/-- C6: for every number `x`, the condense-level normalization returns a value
in `[0, 220]`, returns `x` itself when `x` is already in `[0, 220]`, and is
idempotent. -/
theorem C6_normalizeCondenseLevel_clamps (x : ℚ) :
    (0 ≤ normalizeCondenseLevel x ∧ normalizeCondenseLevel x ≤ 220) ∧
      (0 ≤ x → x ≤ 220 → normalizeCondenseLevel x = x) ∧
      normalizeCondenseLevel (normalizeCondenseLevel x) = normalizeCondenseLevel x := by
  unfold normalizeCondenseLevel MAX_CONDENSE_LEVEL
  refine ⟨⟨le_max_left 0 _, ?_⟩, fun h0 h220 => ?_, ?_⟩
  · exact max_le (by norm_num) (min_le_left _ _)
  · rw [min_eq_right h220, max_eq_right h0]
  · have h1 : max 0 (min 220 x) ≤ 220 := max_le (by norm_num) (min_le_left _ _)
    have h2 : (0 : ℚ) ≤ max 0 (min 220 x) := le_max_left 0 _
    rw [min_eq_right h1, max_eq_right h2]

theorem C6_normalizeCondenseLevel_clamps_witness :
    (0 : ℚ) ≤ 50 ∧ (50 : ℚ) ≤ 220 ∧ normalizeCondenseLevel 50 = 50 :=
  ⟨by norm_num, by norm_num,
    (C6_normalizeCondenseLevel_clamps 50).2.1 (by norm_num) (by norm_num)⟩

/-- C7: `calculateSlotZoom 0` is the configured maximum zoom factor `0.5`,
`calculateSlotZoom 220` is the configured minimum zoom factor `0.1`, and on
`[0, 220]` the mapping is monotonically non-increasing. -/
theorem C7_calculateSlotZoom_endpoints_monotone :
    calculateSlotZoom 0 = MAX_SLOT_ZOOM ∧ MAX_SLOT_ZOOM = 0.5 ∧
      calculateSlotZoom 220 = MIN_SLOT_ZOOM ∧ MIN_SLOT_ZOOM = 0.1 ∧
      ∀ a b : ℚ, 0 ≤ a → a ≤ b → b ≤ 220 →
        calculateSlotZoom b ≤ calculateSlotZoom a := by
  refine ⟨?_, rfl, ?_, rfl, ?_⟩
  · unfold calculateSlotZoom MAX_SLOT_ZOOM MIN_SLOT_ZOOM MAX_CONDENSE_LEVEL
    norm_num
  · unfold calculateSlotZoom MAX_SLOT_ZOOM MIN_SLOT_ZOOM MAX_CONDENSE_LEVEL
    norm_num
  · intro a b h0 hab h220
    unfold calculateSlotZoom MAX_SLOT_ZOOM MIN_SLOT_ZOOM MAX_CONDENSE_LEVEL
    have hsafea : max 0 (min 220 a) = a := by
      rw [min_eq_right (le_trans hab h220), max_eq_right h0]
    have hsafeb : max 0 (min 220 b) = b := by
      rw [min_eq_right h220, max_eq_right (le_trans h0 hab)]
    simp only [hsafea, hsafeb]
    have : a / 220 * (0.5 - 0.1) ≤ b / 220 * (0.5 - 0.1) := by
      apply mul_le_mul_of_nonneg_right
      · exact div_le_div_of_nonneg_right hab (by norm_num)
      · norm_num
    linarith

theorem C7_calculateSlotZoom_endpoints_monotone_witness :
    calculateSlotZoom 220 ≤ calculateSlotZoom 0 :=
  C7_calculateSlotZoom_endpoints_monotone.2.2.2.2 0 220 (by norm_num) (by norm_num)
    (by norm_num)

/-! ## JavaScript string helpers -/

/-- JavaScript `s.trim()` (ASCII whitespace). -/
def jsTrim (s : String) : String :=
  String.mk (((s.data.dropWhile Char.isWhitespace).reverse.dropWhile Char.isWhitespace).reverse)

/-- JavaScript `s.trimStart()` (ASCII whitespace). -/
def jsTrimStart (s : String) : String :=
  String.mk (s.data.dropWhile Char.isWhitespace)

/-- JavaScript `s.toLowerCase()` (ASCII letters, which is all the source maps
hold). -/
def jsToLowerStr (s : String) : String :=
  String.mk (s.data.map Char.toLower)

/-- Split a character list at every separator matched by `p`; like JavaScript
`String.prototype.split`, the result always has one more piece than there are
separators (empty pieces included). -/
def splitCharsAux (p : Char → Bool) : List Char → List Char → List (List Char)
  | [], acc => [acc.reverse]
  | c :: rest, acc =>
    if p c then acc.reverse :: splitCharsAux p rest [] else splitCharsAux p rest (c :: acc)

/-- JavaScript `s.split(p)` for a single-character class from the source
(`/[,;\n]/` or `":"`). -/
def jsSplit (p : Char → Bool) (s : String) : List String :=
  (splitCharsAux p s.data []).map String.mk

/-- The `/[,;\n]/` separator class of `parseStyleMapping`. -/
def styleSeparator (c : Char) : Bool :=
  c = ',' || c = ';' || c = '\n'

/-! ## Association-map model of plain JavaScript objects -/

/-- First-match lookup in an association list keyed by strings. -/
def lookupKey {α : Type} : List (String × α) → String → Option α
  | [], _ => none
  | p :: rest, k => if p.1 = k then some p.2 else lookupKey rest k

/-- JavaScript `obj[k] = v`: replace the binding when the key exists, append
otherwise. -/
def setKey {α : Type} (m : List (String × α)) (k : String) (v : α) : List (String × α) :=
  if m.any (fun p => p.1 = k) then m.map (fun p => if p.1 = k then (k, v) else p)
  else m ++ [(k, v)]

theorem lookupKey_map_set_self {α : Type} (m : List (String × α)) (k : String) (v : α)
    (hany : m.any (fun p => p.1 = k) = true) :
    lookupKey (m.map (fun p => if p.1 = k then (k, v) else p)) k = some v := by
  induction m with
  | nil => simp at hany
  | cons p rest ih =>
    by_cases hp : p.1 = k
    · simp [lookupKey, hp]
    · simp only [List.any_cons, Bool.or_eq_true, decide_eq_true_eq] at hany
      rcases hany with h | h
      · exact absurd h hp
      · simp only [List.map_cons, hp, if_false, lookupKey]
        exact ih h

theorem lookupKey_append_single {α : Type} (m : List (String × α)) (k : String) (v : α)
    (hnone : lookupKey m k = none) : lookupKey (m ++ [(k, v)]) k = some v := by
  induction m with
  | nil => simp [lookupKey]
  | cons p rest ih =>
    by_cases hp : p.1 = k
    · simp [lookupKey, hp] at hnone
    · simp only [lookupKey, hp, if_false] at hnone
      simp only [List.cons_append, lookupKey, hp, if_false]
      exact ih hnone

theorem lookupKey_eq_none_of_any_false {α : Type} (m : List (String × α)) (k : String)
    (hany : m.any (fun p => p.1 = k) = false) : lookupKey m k = none := by
  induction m with
  | nil => rfl
  | cons p rest ih =>
    simp only [List.any_cons, Bool.or_eq_false_iff, decide_eq_false_iff_not] at hany
    simp only [lookupKey, hany.1, if_false]
    exact ih hany.2

theorem lookupKey_setKey_self {α : Type} (m : List (String × α)) (k : String) (v : α) :
    lookupKey (setKey m k v) k = some v := by
  unfold setKey
  by_cases hany : m.any (fun p => p.1 = k)
  · simp only [hany, if_true]
    exact lookupKey_map_set_self m k v hany
  · simp only [hany, if_false]
    have hf : m.any (fun p => p.1 = k) = false := by
      revert hany
      cases m.any (fun p => p.1 = k) <;> simp
    exact lookupKey_append_single m k v (lookupKey_eq_none_of_any_false m k hf)

theorem lookupKey_map_set_ne {α : Type} (m : List (String × α)) (k' k : String) (v : α)
    (h : k' ≠ k) :
    lookupKey (m.map (fun p => if p.1 = k' then (k', v) else p)) k = lookupKey m k := by
  induction m with
  | nil => rfl
  | cons p rest ih =>
    by_cases hp : p.1 = k'
    · have hpk : p.1 ≠ k := by rw [hp]; exact h
      simp only [List.map_cons, hp, if_true, lookupKey, hpk, if_false, h, ih]
    · simp only [List.map_cons, hp, if_false, lookupKey, ih]

theorem lookupKey_append_single_ne {α : Type} (m : List (String × α)) (k' k : String)
    (v : α) (h : k' ≠ k) : lookupKey (m ++ [(k', v)]) k = lookupKey m k := by
  induction m with
  | nil => simp [lookupKey, h]
  | cons p rest ih =>
    by_cases hp : p.1 = k <;> simp [lookupKey, hp, ih]

theorem lookupKey_setKey_ne {α : Type} (m : List (String × α)) (k' k : String) (v : α)
    (h : k' ≠ k) : lookupKey (setKey m k' v) k = lookupKey m k := by
  unfold setKey
  by_cases hany : m.any (fun p => p.1 = k')
  · simp only [hany, if_true]
    exact lookupKey_map_set_ne m k' k v h
  · simp only [hany, if_false]
    exact lookupKey_append_single_ne m k' k v h

theorem lookupKey_setKey_isSome {α : Type} (m : List (String × α)) (k' k : String) (v : α)
    (h : (lookupKey m k).isSome) : (lookupKey (setKey m k' v) k).isSome := by
  by_cases hk : k' = k
  · rw [hk, lookupKey_setKey_self]; rfl
  · rw [lookupKey_setKey_ne m k' k v hk]; exact h

/-! ## Claim C5: `parseStyleMapping` -/

/-- Tagged JavaScript value inside an object-shaped style-map input. -/
inductive JSVal where
  | str : String → JSVal
  | other : JSVal
  deriving DecidableEq

/-- The input shapes `parseStyleMapping` receives: a nullish (falsy) value, a
plain object, or a string. -/
inductive StyleInput where
  | nullish : StyleInput
  | obj : List (String × JSVal) → StyleInput
  | strv : String → StyleInput

/-- One step of the object branch of `parseStyleMapping`: take a string-typed,
non-blank value, lower-case the key and store the trimmed value. -/
def styleObjStep (map : List (String × String)) (kv : String × JSVal) :
    List (String × String) :=
  match kv.2 with
  | .str sv => if jsTrim sv ≠ "" then setKey map (jsToLowerStr kv.1) (jsTrim sv) else map
  | .other => map

/-- The segments of the string branch: split on `[,;\n]`, trim, drop blanks. -/
def styleStrEntries (s : String) : List String :=
  ((jsSplit styleSeparator s).map jsTrim).filter (fun t => t ≠ "")

/-- One step of the string branch of `parseStyleMapping`: split a segment on
`":"`, trim both parts, skip blank key or missing/blank value. -/
def styleStrStep (map : List (String × String)) (entry : String) :
    List (String × String) :=
  match (jsSplit (fun c => c = ':') entry).map jsTrim with
  | [] => map
  | key :: rest =>
    match rest with
    | [] => map
    | mapped :: _ =>
      if key = "" ∨ mapped = "" then map else setKey map (jsToLowerStr key) mapped

/-- `utils.ts` `parseStyleMapping`. -/
def parseStyleMapping (value : StyleInput) (defaults : List (String × String)) :
    List (String × String) :=
  match value with
  | .nullish => defaults
  | .obj entries => entries.foldl styleObjStep defaults
  | .strv s => if s = "" then defaults else (styleStrEntries s).foldl styleStrStep defaults

/-- The claim's "input supplies a non-empty override for key `k`". -/
def suppliesOverride (value : StyleInput) (k : String) : Prop :=
  match value with
  | .nullish => False
  | .obj entries =>
    ∃ kv ∈ entries, jsToLowerStr kv.1 = k ∧ ∃ sv, kv.2 = JSVal.str sv ∧ jsTrim sv ≠ ""
  | .strv s =>
    s ≠ "" ∧ ∃ entry ∈ styleStrEntries s, ∃ key mapped rest,
      (jsSplit (fun c => c = ':') entry).map jsTrim = key :: mapped :: rest ∧
        key ≠ "" ∧ mapped ≠ "" ∧ jsToLowerStr key = k

theorem foldl_styleObjStep_isSome (entries : List (String × JSVal)) (k : String) :
    ∀ map, (lookupKey map k).isSome →
      (lookupKey (entries.foldl styleObjStep map) k).isSome := by
  induction entries with
  | nil => intro map h; exact h
  | cons kv rest ih =>
    intro map h
    simp only [List.foldl_cons]
    apply ih
    unfold styleObjStep
    match kv, kv.2 with
    | kv, .str sv =>
      dsimp only
      by_cases hb : jsTrim sv ≠ ""
      · rw [if_pos hb]
        exact lookupKey_setKey_isSome map _ k _ h
      · rw [if_neg hb]; exact h
    | kv, .other => exact h

theorem foldl_styleObjStep_preserve (entries : List (String × JSVal)) (k : String)
    (hno : ∀ kv ∈ entries,
      ¬(jsToLowerStr kv.1 = k ∧ ∃ sv, kv.2 = JSVal.str sv ∧ jsTrim sv ≠ "")) :
    ∀ map, lookupKey (entries.foldl styleObjStep map) k = lookupKey map k := by
  induction entries with
  | nil => intro map; rfl
  | cons kv rest ih =>
    intro map
    simp only [List.foldl_cons]
    have hstep : lookupKey (styleObjStep map kv) k = lookupKey map k := by
      unfold styleObjStep
      match hv : kv.2 with
      | .str sv =>
        dsimp only
        by_cases hb : jsTrim sv ≠ ""
        · rw [if_pos hb]
          apply lookupKey_setKey_ne
          intro habs
          exact hno kv (List.mem_cons_self kv rest) ⟨habs, sv, hv, hb⟩
        · rw [if_neg hb]
      | .other => rfl
    rw [ih (fun kv hkv => hno kv (List.mem_cons_of_mem _ hkv)) (styleObjStep map kv), hstep]

theorem foldl_styleStrStep_isSome (entries : List String) (k : String) :
    ∀ map, (lookupKey map k).isSome →
      (lookupKey (entries.foldl styleStrStep map) k).isSome := by
  induction entries with
  | nil => intro map h; exact h
  | cons e rest ih =>
    intro map h
    simp only [List.foldl_cons]
    apply ih
    unfold styleStrStep
    match (jsSplit (fun c => c = ':') e).map jsTrim with
    | [] => exact h
    | key :: [] => exact h
    | key :: mapped :: tl =>
      dsimp only
      by_cases hb : key = "" ∨ mapped = ""
      · rw [if_pos hb]; exact h
      · rw [if_neg hb]
        exact lookupKey_setKey_isSome map _ k _ h

theorem foldl_styleStrStep_preserve (entries : List String) (k : String)
    (hno : ∀ e ∈ entries, ¬∃ key mapped rest,
      (jsSplit (fun c => c = ':') e).map jsTrim = key :: mapped :: rest ∧
        key ≠ "" ∧ mapped ≠ "" ∧ jsToLowerStr key = k) :
    ∀ map, lookupKey (entries.foldl styleStrStep map) k = lookupKey map k := by
  induction entries with
  | nil => intro map; rfl
  | cons e rest ih =>
    intro map
    simp only [List.foldl_cons]
    have hstep : lookupKey (styleStrStep map e) k = lookupKey map k := by
      unfold styleStrStep
      match hsp : (jsSplit (fun c => c = ':') e).map jsTrim with
      | [] => rfl
      | key :: [] => rfl
      | key :: mapped :: tl =>
        dsimp only
        by_cases hb : key = "" ∨ mapped = ""
        · rw [if_pos hb]
        · rw [if_neg hb]
          apply lookupKey_setKey_ne
          intro habs
          push_neg at hb
          exact hno e (List.mem_cons_self e rest) ⟨key, mapped, tl, hsp, hb.1, hb.2, habs⟩
    rw [ih (fun e he => hno e (List.mem_cons_of_mem _ he)) (styleStrStep map e), hstep]

/-- C5: `parseStyleMapping` keeps every default key, changes a default binding
only when the input supplies a non-empty override for it, and on the string
input `"low:#111111; high:#222222"` overrides exactly `low` and `high` over the
priority-color defaults. -/
theorem C5_parseStyleMapping_merges_defaults (value : StyleInput)
    (defaults : List (String × String)) :
    (∀ k, (lookupKey defaults k).isSome →
        (lookupKey (parseStyleMapping value defaults) k).isSome) ∧
      (∀ k, lookupKey (parseStyleMapping value defaults) k ≠ lookupKey defaults k →
        suppliesOverride value k) ∧
      parseStyleMapping (StyleInput.strv "low:#111111; high:#222222")
          DEFAULT_PRIORITY_COLOR_MAP =
        [("low", "#111111"), ("normal", "#60a5fa"), ("medium", "#facc15"),
          ("high", "#222222")] := by
  refine ⟨?_, ?_, by decide⟩
  · intro k h
    match value with
    | .nullish => exact h
    | .obj entries => exact foldl_styleObjStep_isSome entries k defaults h
    | .strv s =>
      unfold parseStyleMapping
      by_cases hs : s = ""
      · simp only [hs, if_true]; exact h
      · simp only [hs, if_false]
        exact foldl_styleStrStep_isSome _ k defaults h
  · intro k hne
    match value with
    | .nullish => exact hne rfl
    | .obj entries =>
      by_contra hno
      apply hne
      apply foldl_styleObjStep_preserve entries k
      intro kv hkv habs
      exact hno ⟨kv, hkv, habs⟩
    | .strv s =>
      by_cases hs : s = ""
      · exact absurd (by simp [parseStyleMapping, hs]) hne
      · by_contra hno
        apply hne
        show lookupKey (parseStyleMapping (StyleInput.strv s) defaults) k = _
        unfold parseStyleMapping
        simp only [hs, if_false]
        apply foldl_styleStrStep_preserve _ k
        intro e he habs
        rcases habs with ⟨key, mapped, rest, hsp, hk, hm, hlow⟩
        exact hno ⟨hs, e, he, key, mapped, rest, hsp, hk, hm, hlow⟩
  
theorem C5_parseStyleMapping_merges_defaults_witness :
    (lookupKey DEFAULT_PRIORITY_COLOR_MAP "normal").isSome ∧
      (lookupKey (parseStyleMapping (StyleInput.strv "low:#111111; high:#222222")
        DEFAULT_PRIORITY_COLOR_MAP) "normal").isSome :=
  ⟨by decide,
    (C5_parseStyleMapping_merges_defaults (StyleInput.strv "low:#111111; high:#222222")
      DEFAULT_PRIORITY_COLOR_MAP).1 "normal" (by decide)⟩

/-! ## Frontmatter write-back (`calendar-view.tsx`) -/

/-- JavaScript `Math.round` on an exact rational: round half towards plus
infinity. -/
def jsRound (q : ℚ) : Int :=
  ⌊q + 1 / 2⌋

/-- A Bases property identifier in the parsed form `parsePropertyId` returns
(the host parser itself is out of scope; identifiers are modelled already
split into type and name). -/
structure PropIdM where
  ptype : String
  pname : String
  deriving DecidableEq

/-- `calendar-view.tsx` `getNoteField`: the frontmatter field name of a
note-typed property, `null` otherwise. -/
def getNoteField (propId : Option PropIdM) : Option String :=
  match propId with
  | none => none
  | some p => if p.ptype = "note" then some p.pname else none

/-- Frontmatter values the write-back produces or preserves. -/
inductive FmVal where
  | str : String → FmVal
  | num : Int → FmVal
  | boolVal : Bool → FmVal
  deriving DecidableEq

/-- `Math.round((newEnd.getTime() - newStart.getTime()) / (1000 * 60))`. -/
def durationMinutes (newStart newEnd : JSDate) : Int :=
  jsRound (((newEnd.getTime - newStart.getTime : Int) : ℚ) / (1000 * 60))

/-- The end-date and duration writes of `updateEntryDates`: performed only
when an end-date property is bound, an end was supplied, and the end field
resolved; the `duration` field is written exactly when the rounded minute
difference is positive. -/
def applyEndDurationWrite (fm1 : List (String × FmVal)) (newStart : JSDate)
    (endDateProp : Option PropIdM) (newEnd : Option JSDate) (endField : Option String) :
    List (String × FmVal) :=
  match endDateProp, newEnd, endField with
  | some _, some e, some ef =>
    let fmEnd := setKey fm1 ef (FmVal.str (formatDateTimeForFrontmatter e))
    let dur := durationMinutes newStart e
    if 0 < dur then setKey fmEnd "duration" (FmVal.num dur) else fmEnd
  | _, _, _ => fm1

/-- The all-day write of `updateEntryDates`: performed only when an all-day
field is configured and an all-day argument was passed. -/
def applyAllDayWrite (fm2 : List (String × FmVal)) (allDayField : Option String)
    (allDay : Option Bool) : List (String × FmVal) :=
  match allDayField, allDay with
  | some f, some b => setKey fm2 f (FmVal.boolVal b)
  | _, _ => fm2

/-- `calendar-view.tsx` `updateEntryDates`: the frontmatter mutation performed
inside the `processFrontMatter` transaction, `none` when a guard rejects the
write. -/
def updateEntryDates (startDateProp endDateProp allDayProperty : Option PropIdM)
    (fm : List (String × FmVal)) (newStart : JSDate) (newEnd : Option JSDate)
    (allDay : Option Bool) : Option (List (String × FmVal)) :=
  match startDateProp with
  | none => none
  | some _ =>
    let startField := getNoteField startDateProp
    let endField := getNoteField endDateProp
    let allDayField := getNoteField allDayProperty
    match startField with
    | none => none
    | some sf =>
      if endDateProp.isSome ∧ endField = none then none
      else
        let fm1 := setKey fm sf (FmVal.str (formatDateTimeForFrontmatter newStart))
        some (applyAllDayWrite (applyEndDurationWrite fm1 newStart endDateProp newEnd endField)
          allDayField allDay)

/-- `calendar-view.tsx` `handleEventDrop`: normalize both endpoints to
midnight when the drop is flagged all-day, then delegate to
`updateEntryDates`. -/
def handleEventDrop (startDateProp endDateProp allDayProperty : Option PropIdM)
    (fm : List (String × FmVal)) (newStart : JSDate) (newEnd : Option JSDate)
    (allDay : Option Bool) : Option (List (String × FmVal)) :=
  let normalizedStart := if allDay = some true then newStart.setMidnight else newStart
  let normalizedEnd := if allDay = some true then newEnd.map JSDate.setMidnight else newEnd
  updateEntryDates startDateProp endDateProp allDayProperty fm normalizedStart
    normalizedEnd allDay

/-- `calendar-view.tsx` `handleEventResize`: reject a resize without an end
date, otherwise delegate to `updateEntryDates`. -/
def handleEventResize (startDateProp endDateProp allDayProperty : Option PropIdM)
    (fm : List (String × FmVal)) (newStart : JSDate) (newEnd : Option JSDate)
    (allDay : Option Bool) : Option (List (String × FmVal)) :=
  match newEnd with
  | none => none
  | some _ =>
    updateEntryDates startDateProp endDateProp allDayProperty fm newStart newEnd allDay

/-- `CalendarReactView` `handleDrop` argument computation: revert when the
widget has no new start; otherwise call the adapter's `onEventDrop` with the
new start, `newEnd ?? newStart`, and no all-day argument. -/
def renderHandleDropArgs (eventStart eventEnd : Option JSDate) :
    Option (JSDate × JSDate × Option Bool) :=
  match eventStart with
  | none => none
  | some s => some (s, eventEnd.getD s, none)

/-- The rendering component's drop pipeline: `handleDrop` feeding the
adapter's `handleEventDrop`. -/
def renderDropWriteBack (startDateProp endDateProp allDayProperty : Option PropIdM)
    (fm : List (String × FmVal)) (eventStart eventEnd : Option JSDate) :
    Option (Option (List (String × FmVal))) :=
  (renderHandleDropArgs eventStart eventEnd).map (fun args =>
    handleEventDrop startDateProp endDateProp allDayProperty fm args.1 (some args.2.1)
      args.2.2)

/-- The claim-side whole-minute difference (end minus start) between two
minute-aligned instants. -/
def wholeMinuteDiff (s e : JSDate) : Int :=
  ((civilToDays e.year (e.month0 + 1) e.day : Int) -
      (civilToDays s.year (s.month0 + 1) s.day : Int)) * 1440 +
    ((e.hour : Int) - (s.hour : Int)) * 60 + ((e.minute : Int) - (s.minute : Int))

theorem jsRound_intCast (k : Int) : jsRound (k : ℚ) = k := by
  unfold jsRound
  rw [Int.floor_eq_iff]
  constructor
  · linarith
  · linarith

theorem durationMinutes_exact (s e : JSDate) (hss : s.second = 0) (hsms : s.ms = 0)
    (hes : e.second = 0) (hems : e.ms = 0) :
    durationMinutes s e = wholeMinuteDiff s e := by
  unfold durationMinutes
  have hdiff : e.getTime - s.getTime = 60000 * wholeMinuteDiff s e := by
    unfold JSDate.getTime wholeMinuteDiff
    rw [hss, hes, hsms, hems]
    push_cast
    ring
  rw [hdiff]
  have hq : ((60000 * wholeMinuteDiff s e : Int) : ℚ) / (1000 * 60) =
      ((wholeMinuteDiff s e : Int) : ℚ) := by
    push_cast
    field_simp
    ring
  rw [hq, jsRound_intCast]

theorem lookupKey_applyAllDayWrite_ne (fm2 : List (String × FmVal))
    (adf : Option String) (ad : Option Bool) (k : String)
    (hk : ∀ f, adf = some f → f ≠ k) :
    lookupKey (applyAllDayWrite fm2 adf ad) k = lookupKey fm2 k := by
  unfold applyAllDayWrite
  match adf, ad with
  | some f, some b => exact lookupKey_setKey_ne _ _ _ _ (hk f rfl)
  | some f, none => rfl
  | none, some b => rfl
  | none, none => rfl

/-- C2: a drag/resize write-back with a bound (note-typed) start field writes
the start formatted as zero-padded `YYYY-MM-DD HH:MM`; with a bound end field
and a supplied end it writes the end in the same format, and writes a
`duration` field equal to the whole-minute end-minus-start difference exactly
when that difference is positive (`duration` untouched when it is ≤ 0). -/
theorem C2_updateEntryDates_format_and_duration (sp ep : PropIdM)
    (adProp : Option PropIdM) (fm : List (String × FmVal)) (s e : JSDate)
    (allDay : Option Bool) (hsp : sp.ptype = "note") (hep : ep.ptype = "note")
    (hss : s.second = 0) (hsms : s.ms = 0) (hes : e.second = 0) (hems : e.ms = 0)
    (hne : sp.pname ≠ ep.pname) (hsd : sp.pname ≠ "duration")
    (hed : ep.pname ≠ "duration")
    (had : ∀ f, getNoteField adProp = some f →
      f ≠ sp.pname ∧ f ≠ ep.pname ∧ f ≠ "duration") :
    ∃ fm2, updateEntryDates (some sp) (some ep) adProp fm s (some e) allDay = some fm2 ∧
      lookupKey fm2 sp.pname = some (FmVal.str (formatDateTimeForFrontmatter s)) ∧
      formatDateTimeForFrontmatter s =
        natToString s.year ++ "-" ++ pad2 (s.month0 + 1) ++ "-" ++ pad2 s.day ++ " " ++
          pad2 s.hour ++ ":" ++ pad2 s.minute ∧
      lookupKey fm2 ep.pname = some (FmVal.str (formatDateTimeForFrontmatter e)) ∧
      (0 < wholeMinuteDiff s e →
        lookupKey fm2 "duration" = some (FmVal.num (wholeMinuteDiff s e))) ∧
      (wholeMinuteDiff s e ≤ 0 →
        lookupKey fm2 "duration" = lookupKey fm "duration") := by
  have hdur : durationMinutes s e = wholeMinuteDiff s e :=
    durationMinutes_exact s e hss hsms hes hems
  have hsf : getNoteField (some sp) = some sp.pname := by simp [getNoteField, hsp]
  have hef : getNoteField (some ep) = some ep.pname := by simp [getNoteField, hep]
  refine ⟨applyAllDayWrite
      (applyEndDurationWrite
        (setKey fm sp.pname (FmVal.str (formatDateTimeForFrontmatter s))) s (some ep)
        (some e) (some ep.pname))
      (getNoteField adProp) allDay, ?_, ?_, rfl, ?_, ?_, ?_⟩
  · unfold updateEntryDates
    simp only [hsf, hef]
    simp [getNoteField, hsp, hep]
  · rw [lookupKey_applyAllDayWrite_ne _ _ _ _ (fun f hf => (had f hf).1)]
    unfold applyEndDurationWrite
    dsimp only
    by_cases hpos : 0 < durationMinutes s e
    · rw [if_pos hpos, lookupKey_setKey_ne _ _ _ _ (Ne.symm hsd),
        lookupKey_setKey_ne _ _ _ _ (Ne.symm hne), lookupKey_setKey_self]
    · rw [if_neg hpos, lookupKey_setKey_ne _ _ _ _ (Ne.symm hne), lookupKey_setKey_self]
  · rw [lookupKey_applyAllDayWrite_ne _ _ _ _ (fun f hf => (had f hf).2.1)]
    unfold applyEndDurationWrite
    dsimp only
    by_cases hpos : 0 < durationMinutes s e
    · rw [if_pos hpos, lookupKey_setKey_ne _ _ _ _ (Ne.symm hed), lookupKey_setKey_self]
    · rw [if_neg hpos, lookupKey_setKey_self]
  · intro hgt
    rw [lookupKey_applyAllDayWrite_ne _ _ _ _ (fun f hf => (had f hf).2.2)]
    unfold applyEndDurationWrite
    dsimp only
    rw [if_pos (by rw [hdur]; exact hgt), lookupKey_setKey_self, hdur]
  · intro hle
    rw [lookupKey_applyAllDayWrite_ne _ _ _ _ (fun f hf => (had f hf).2.2)]
    unfold applyEndDurationWrite
    dsimp only
    rw [if_neg (by rw [hdur]; omega), lookupKey_setKey_ne _ _ _ _ hed,
      lookupKey_setKey_ne _ _ _ _ hsd]

theorem C2_updateEntryDates_format_and_duration_witness :
    wholeMinuteDiff ⟨2024, 2, 1, 9, 0, 0, 0⟩ ⟨2024, 2, 1, 10, 30, 0, 0⟩ = 90 ∧
      ∃ fm2, updateEntryDates (some ⟨"note", "start"⟩) (some ⟨"note", "end"⟩) none []
          ⟨2024, 2, 1, 9, 0, 0, 0⟩ (some ⟨2024, 2, 1, 10, 30, 0, 0⟩) none = some fm2 ∧
        lookupKey fm2 "duration" = some (FmVal.num 90) := by
  have h := C2_updateEntryDates_format_and_duration ⟨"note", "start"⟩ ⟨"note", "end"⟩
    none [] ⟨2024, 2, 1, 9, 0, 0, 0⟩ ⟨2024, 2, 1, 10, 30, 0, 0⟩ none rfl rfl rfl rfl rfl
    rfl (by decide) (by decide) (by decide) (fun f hf => Option.noConfusion hf)
  obtain ⟨fm2, h1, h2, h3, h4, h5, h6⟩ := h
  have hw : wholeMinuteDiff ⟨2024, 2, 1, 9, 0, 0, 0⟩ ⟨2024, 2, 1, 10, 30, 0, 0⟩ = 90 := by
    decide
  refine ⟨hw, fm2, h1, ?_⟩
  rw [h5 (by rw [hw]; norm_num), hw]

theorem applyAllDayWrite_none (fm2 : List (String × FmVal)) (adf : Option String) :
    applyAllDayWrite fm2 adf none = fm2 := by
  cases adf <;> rfl

theorem lookupKey_applyEndDurationWrite_ne (fm1 : List (String × FmVal)) (ns : JSDate)
    (endProp : Option PropIdM) (newEnd : Option JSDate) (ef : Option String) (k : String)
    (hk1 : k ≠ "duration") (hk2 : ∀ f, ef = some f → f ≠ k) :
    lookupKey (applyEndDurationWrite fm1 ns endProp newEnd ef) k = lookupKey fm1 k := by
  unfold applyEndDurationWrite
  match endProp, newEnd, ef with
  | some p, some e, some f =>
    dsimp only
    by_cases hpos : 0 < durationMinutes ns e
    · rw [if_pos hpos, lookupKey_setKey_ne _ _ _ _ (Ne.symm hk1),
        lookupKey_setKey_ne _ _ _ _ (hk2 f rfl)]
    · rw [if_neg hpos, lookupKey_setKey_ne _ _ _ _ (hk2 f rfl)]
  | some p, some e, none => rfl
  | some p, none, _ => rfl
  | none, some e, _ => rfl
  | none, none, _ => rfl

theorem updateEntryDates_eq (sp : PropIdM) (endProp adProp : Option PropIdM)
    (fm : List (String × FmVal)) (newStart : JSDate) (newEnd : Option JSDate)
    (allDay : Option Bool) (hsp : sp.ptype = "note")
    (hepnote : ∀ p, endProp = some p → p.ptype = "note") :
    updateEntryDates (some sp) endProp adProp fm newStart newEnd allDay =
      some (applyAllDayWrite
        (applyEndDurationWrite
          (setKey fm sp.pname (FmVal.str (formatDateTimeForFrontmatter newStart)))
          newStart endProp newEnd (getNoteField endProp))
        (getNoteField adProp) allDay) := by
  match hend : endProp with
  | none =>
    unfold updateEntryDates
    simp [getNoteField, hsp]
  | some ep =>
    have hef : getNoteField (some ep) = some ep.pname := by
      simp [getNoteField, hepnote ep rfl]
    unfold updateEntryDates
    simp only [hef]
    simp [getNoteField, hsp]

theorem updateEntryDates_some_inv (startProp endProp adProp : Option PropIdM)
    (fm : List (String × FmVal)) (newStart : JSDate) (newEnd : Option JSDate)
    (allDay : Option Bool) (fm2 : List (String × FmVal))
    (h : updateEntryDates startProp endProp adProp fm newStart newEnd allDay = some fm2) :
    ∃ sf, getNoteField startProp = some sf ∧
      fm2 = applyAllDayWrite
        (applyEndDurationWrite
          (setKey fm sf (FmVal.str (formatDateTimeForFrontmatter newStart)))
          newStart endProp newEnd (getNoteField endProp))
        (getNoteField adProp) allDay := by
  unfold updateEntryDates at h
  match startProp with
  | none => exact absurd h (by simp)
  | some sp =>
    dsimp only at h
    match hsf : getNoteField (some sp) with
    | none => rw [hsf] at h; exact absurd h (by simp)
    | some sf =>
      rw [hsf] at h
      dsimp only at h
      by_cases hg : endProp.isSome ∧ getNoteField endProp = none
      · rw [if_pos hg] at h
        exact absurd h (by simp)
      · rw [if_neg hg] at h
        exact ⟨sf, rfl, (Option.some_inj.mp h).symm⟩

theorem applyEndDurationWrite_none_end (fm1 : List (String × FmVal)) (ns : JSDate)
    (endProp : Option PropIdM) (ef : Option String) :
    applyEndDurationWrite fm1 ns endProp none ef = fm1 := by
  match endProp, ef with
  | some p, some f => rfl
  | some p, none => rfl
  | none, _ => rfl

/-- C9: an all-day drop (`allDay = true`) writes the start (and, when
supplied, the end) normalized to local midnight of its day into the bound
fields, and writes no `duration` field when no end date is supplied. -/
theorem C9_handleEventDrop_allDay_midnight (sp : PropIdM)
    (endProp adProp : Option PropIdM) (fm : List (String × FmVal))
    (newStart : JSDate) (newEnd : Option JSDate)
    (hsp : sp.ptype = "note")
    (hepnote : ∀ p, endProp = some p → p.ptype = "note")
    (hsd : sp.pname ≠ "duration")
    (hend : ∀ f, getNoteField endProp = some f → f ≠ sp.pname ∧ f ≠ "duration")
    (had : ∀ f, getNoteField adProp = some f →
      f ≠ sp.pname ∧ f ≠ "duration" ∧ ∀ g, getNoteField endProp = some g → f ≠ g) :
    ∃ fm2, handleEventDrop (some sp) endProp adProp fm newStart newEnd (some true) =
        some fm2 ∧
      lookupKey fm2 sp.pname =
        some (FmVal.str (formatDateTimeForFrontmatter newStart.setMidnight)) ∧
      (newStart.setMidnight.hour = 0 ∧ newStart.setMidnight.minute = 0 ∧
        newStart.setMidnight.second = 0 ∧ newStart.setMidnight.ms = 0) ∧
      (newEnd = none → lookupKey fm2 "duration" = lookupKey fm "duration") ∧
      (∀ e ep, newEnd = some e → endProp = some ep →
        lookupKey fm2 ep.pname =
          some (FmVal.str (formatDateTimeForFrontmatter e.setMidnight))) := by
  have hrun : handleEventDrop (some sp) endProp adProp fm newStart newEnd (some true) =
      updateEntryDates (some sp) endProp adProp fm newStart.setMidnight
        (newEnd.map JSDate.setMidnight) (some true) := by
    unfold handleEventDrop
    simp
  rw [hrun, updateEntryDates_eq sp endProp adProp fm newStart.setMidnight
    (newEnd.map JSDate.setMidnight) (some true) hsp hepnote]
  refine ⟨_, rfl, ?_, ⟨rfl, rfl, rfl, rfl⟩, ?_, ?_⟩
  · rw [lookupKey_applyAllDayWrite_ne _ _ _ _ (fun f hf => (had f hf).1),
      lookupKey_applyEndDurationWrite_ne _ _ _ _ _ _ hsd (fun f hf => (hend f hf).1),
      lookupKey_setKey_self]
  · intro hnone
    rw [hnone]
    rw [lookupKey_applyAllDayWrite_ne _ _ _ _ (fun f hf => (had f hf).2.1)]
    show lookupKey (applyEndDurationWrite _ _ _ (Option.map JSDate.setMidnight none) _)
      "duration" = _
    rw [show Option.map JSDate.setMidnight none = none from rfl, applyEndDurationWrite_none_end,
      lookupKey_setKey_ne _ _ _ _ hsd]
  · intro e ep hsome hepsome
    subst hsome
    subst hepsome
    have hef : getNoteField (some ep) = some ep.pname := by
      simp [getNoteField, hepnote ep rfl]
    rw [lookupKey_applyAllDayWrite_ne _ _ _ _
      (fun f hf => (had f hf).2.2 ep.pname hef)]
    rw [hef]
    show lookupKey (applyEndDurationWrite _ _ _ (Option.map JSDate.setMidnight (some e)) _)
      ep.pname = _
    rw [show Option.map JSDate.setMidnight (some e) = some e.setMidnight from rfl]
    unfold applyEndDurationWrite
    dsimp only
    by_cases hpos : 0 < durationMinutes newStart.setMidnight e.setMidnight
    · rw [if_pos hpos,
        lookupKey_setKey_ne _ _ _ _ (Ne.symm (hend ep.pname hef).2),
        lookupKey_setKey_self]
    · rw [if_neg hpos, lookupKey_setKey_self]

theorem C9_handleEventDrop_allDay_midnight_witness :
    ∃ fm2, handleEventDrop (some ⟨"note", "start"⟩) (some ⟨"note", "end"⟩)
        (some ⟨"note", "allDay"⟩) [("duration", FmVal.num 5)]
        ⟨2024, 2, 2, 10, 15, 0, 0⟩ none (some true) = some fm2 ∧
      lookupKey fm2 "start" = some (FmVal.str "2024-03-02 00:00") ∧
      lookupKey fm2 "duration" = some (FmVal.num 5) := by
  obtain ⟨fm2, h1, h2, h3, h4, h5⟩ :=
    C9_handleEventDrop_allDay_midnight ⟨"note", "start"⟩ (some ⟨"note", "end"⟩)
      (some ⟨"note", "allDay"⟩) [("duration", FmVal.num 5)] ⟨2024, 2, 2, 10, 15, 0, 0⟩
      none rfl (fun p hp => by cases hp; rfl) (by decide)
      (by
        intro f hf
        simp [getNoteField] at hf
        subst hf
        exact ⟨by decide, by decide⟩)
      (by
        intro f hf
        simp [getNoteField] at hf
        subst hf
        refine ⟨by decide, by decide, ?_⟩
        intro g hg
        simp [getNoteField] at hg
        subst hg
        decide)
  refine ⟨fm2, h1, ?_, ?_⟩
  · rw [h2]
    decide
  · rw [h4 rfl]
    rfl

/-- C10: the rendering component's drop handler passes the adapter a defined
end (the widget's end when present, otherwise the new start) and no all-day
argument, so a drop routed through it never changes the stored all-day
frontmatter field. -/
theorem C10_renderDrop_preserves_allDay (startProp endProp adProp : Option PropIdM)
    (fm : List (String × FmVal)) (eventStart eventEnd : Option JSDate)
    (hcollide : ∀ f, getNoteField adProp = some f →
      f ≠ "duration" ∧ (∀ g, getNoteField startProp = some g → f ≠ g) ∧
        (∀ g, getNoteField endProp = some g → f ≠ g)) :
    (eventStart = none →
      renderDropWriteBack startProp endProp adProp fm eventStart eventEnd = none) ∧
    (∀ s, eventStart = some s →
      renderDropWriteBack startProp endProp adProp fm eventStart eventEnd =
        some (handleEventDrop startProp endProp adProp fm s (some (eventEnd.getD s))
          none)) ∧
    (∀ s fm2, eventStart = some s →
      handleEventDrop startProp endProp adProp fm s (some (eventEnd.getD s)) none =
        some fm2 →
      ∀ f, getNoteField adProp = some f → lookupKey fm2 f = lookupKey fm f) := by
  refine ⟨?_, ?_, ?_⟩
  · intro h
    subst h
    rfl
  · intro s h
    subst h
    rfl
  · intro s fm2 hst hup f hf
    have hupdate : updateEntryDates startProp endProp adProp fm s
        (some (eventEnd.getD s)) none = some fm2 := by
      have : handleEventDrop startProp endProp adProp fm s (some (eventEnd.getD s)) none =
          updateEntryDates startProp endProp adProp fm s (some (eventEnd.getD s)) none := by
        unfold handleEventDrop
        simp
      rw [← this]
      exact hup
    obtain ⟨sf, hsf, hfm2⟩ := updateEntryDates_some_inv startProp endProp adProp fm s
      (some (eventEnd.getD s)) none fm2 hupdate
    rw [hfm2, applyAllDayWrite_none,
      lookupKey_applyEndDurationWrite_ne _ _ _ _ _ _ (hcollide f hf).1
        (fun g hg => Ne.symm ((hcollide f hf).2.2 g hg)),
      lookupKey_setKey_ne _ _ _ _ (Ne.symm ((hcollide f hf).2.1 sf hsf))]

theorem C10_renderDrop_preserves_allDay_witness :
    ∃ fm2, renderDropWriteBack (some ⟨"note", "start"⟩) none (some ⟨"note", "allDay"⟩)
        [("allDay", FmVal.boolVal true)] (some ⟨2024, 2, 2, 9, 0, 0, 0⟩) none =
      some (some fm2) ∧ lookupKey fm2 "allDay" = some (FmVal.boolVal true) := by
  have hcol : ∀ f, getNoteField (some (⟨"note", "allDay"⟩ : PropIdM)) = some f →
      f ≠ "duration" ∧
        (∀ g, getNoteField (some (⟨"note", "start"⟩ : PropIdM)) = some g → f ≠ g) ∧
        (∀ g, getNoteField (none : Option PropIdM) = some g → f ≠ g) := by
    intro f hf
    simp [getNoteField] at hf
    subst hf
    refine ⟨by decide, ?_, ?_⟩
    · intro g hg
      simp [getNoteField] at hg
      subst hg
      decide
    · intro g hg
      exact absurd hg (by simp [getNoteField])
  have h := C10_renderDrop_preserves_allDay (some ⟨"note", "start"⟩) none
    (some ⟨"note", "allDay"⟩) [("allDay", FmVal.boolVal true)]
    (some ⟨2024, 2, 2, 9, 0, 0, 0⟩) none hcol
  have hrun : handleEventDrop (some ⟨"note", "start"⟩) none (some ⟨"note", "allDay"⟩)
      [("allDay", FmVal.boolVal true)] ⟨2024, 2, 2, 9, 0, 0, 0⟩
      (some ((none : Option JSDate).getD ⟨2024, 2, 2, 9, 0, 0, 0⟩)) none =
      some [("allDay", FmVal.boolVal true), ("start", FmVal.str "2024-03-02 09:00")] := by
    decide
  refine ⟨[("allDay", FmVal.boolVal true), ("start", FmVal.str "2024-03-02 09:00")],
    ?_, ?_⟩
  · rw [h.2.1 ⟨2024, 2, 2, 9, 0, 0, 0⟩ rfl, hrun]
  · rw [h.2.2 ⟨2024, 2, 2, 9, 0, 0, 0⟩ _ rfl hrun "allDay" (by decide)]
    rfl

/-! ## Claim C1: entry extraction -/

/-- A typed host value as returned by `entry.getValue`: a `DateValue` (whose
private `date` member may or may not hold a concrete `Date`), some other typed
value, or a string-typed value. -/
inductive HostValue where
  | dateValue : Option JSDate → HostValue
  | strValue : String → HostValue
  | otherValue : HostValue

/-- A Bases record: file path plus typed property access, which can throw
(`Except.error`) or yield `null`/`undefined` (`Option.none`). -/
structure BasesEntry where
  path : String
  getValue : String → Except Unit (Option HostValue)

/-- `calendar-view.tsx` `extractDate`: `null` when access throws, the value is
falsy, the value is not a `DateValue`, or its `date` member is not a concrete
`Date`. -/
def extractDate (entry : BasesEntry) (propId : String) : Option JSDate :=
  match entry.getValue propId with
  | .error _ => none
  | .ok none => none
  | .ok (some v) =>
    match v with
    | .dateValue (some d) => some d
    | .dateValue none => none
    | .strValue _ => none
    | .otherValue => none

/-- The derived calendar entry built by `updateCalendar`. -/
structure CalendarEntry where
  entry : BasesEntry
  startDate : JSDate
  endDate : Option JSDate
  title : Option HostValue

/-- The extraction loop of `updateCalendar` (also re-run by
`scheduleRefresh`): push an entry for every record whose start date resolves
(the optional end date is `endProp.bind`, matching the `?? undefined`
fallback); the unguarded title access may throw, modelled by `Except.error`. -/
def updateCalendarEntries (data : List BasesEntry) (startProp : String)
    (endProp titleProp : Option String) : Except Unit (List CalendarEntry) :=
  match data with
  | [] => .ok []
  | e :: rest =>
    match extractDate e startProp with
    | some sd =>
      match titleProp with
      | some tp =>
        match e.getValue tp with
        | .error u => .error u
        | .ok tv =>
          (updateCalendarEntries rest startProp endProp titleProp).map
            (fun l => ⟨e, sd, endProp.bind (extractDate e), tv⟩ :: l)
      | none =>
        (updateCalendarEntries rest startProp endProp titleProp).map
          (fun l => ⟨e, sd, endProp.bind (extractDate e), none⟩ :: l)
    | none => updateCalendarEntries rest startProp endProp titleProp

theorem updateCalendarEntries_spec (startProp : String) (endProp titleProp : Option String) :
    ∀ data : List BasesEntry,
      (∀ e ∈ data, ∀ tp, titleProp = some tp → (e.getValue tp).isOk) →
      ∃ l, updateCalendarEntries data startProp endProp titleProp = Except.ok l ∧
        (∀ c ∈ l, extractDate c.entry startProp = some c.startDate) ∧
        (∀ e ∈ data, (extractDate e startProp).isSome → ∃ c ∈ l, c.entry = e) := by
  intro data
  induction data with
  | nil => exact fun _ => ⟨[], rfl, by simp, by simp⟩
  | cons e rest ih =>
    intro htitle
    obtain ⟨l, hl, hb, hc⟩ := ih (fun e' he' => htitle e' (List.mem_cons_of_mem _ he'))
    cases hx : extractDate e startProp with
    | none =>
      refine ⟨l, ?_, hb, ?_⟩
      · show updateCalendarEntries (e :: rest) startProp endProp titleProp = Except.ok l
        unfold updateCalendarEntries
        rw [hx]
        exact hl
      · intro e' he' hsome
        rcases List.mem_cons.mp he' with rfl | he'
        · rw [hx] at hsome
          simp at hsome
        · exact hc e' he' hsome
    | some sd =>
      cases ht : titleProp with
      | none =>
        refine ⟨⟨e, sd, endProp.bind (extractDate e), none⟩ :: l, ?_, ?_, ?_⟩
        · rw [ht] at hl
          show updateCalendarEntries (e :: rest) startProp endProp none = _
          unfold updateCalendarEntries
          rw [hx]
          dsimp only
          rw [hl]
          rfl
        · intro c hcl
          rcases List.mem_cons.mp hcl with rfl | hcl
          · exact hx
          · exact hb c hcl
        · intro e' he' hsome
          rcases List.mem_cons.mp he' with rfl | he'
          · exact ⟨_, List.mem_cons_self _ _, rfl⟩
          · obtain ⟨c, hcl, hce⟩ := hc e' he' hsome
            exact ⟨c, List.mem_cons_of_mem _ hcl, hce⟩
      | some tp =>
        have hok := htitle e (List.mem_cons_self e rest) tp ht
        cases hv : e.getValue tp with
        | error u => rw [hv] at hok; simp [Except.isOk, Except.toBool] at hok
        | ok tv =>
          refine ⟨⟨e, sd, endProp.bind (extractDate e), tv⟩ :: l, ?_, ?_, ?_⟩
          · rw [ht] at hl
            show updateCalendarEntries (e :: rest) startProp endProp (some tp) = _
            unfold updateCalendarEntries
            rw [hx]
            dsimp only
            rw [hv]
            dsimp only
            rw [hl]
            rfl
          · intro c hcl
            rcases List.mem_cons.mp hcl with rfl | hcl
            · exact hx
            · exact hb c hcl
          · intro e' he' hsome
            rcases List.mem_cons.mp he' with rfl | he'
            · exact ⟨_, List.mem_cons_self _ _, rfl⟩
            · obtain ⟨c, hcl, hce⟩ := hc e' he' hsome
              exact ⟨c, List.mem_cons_of_mem _ hcl, hce⟩

/-- C1: the extraction pass produces entries exactly for records whose
start-date property resolves to a concrete date: absent, wrong-typed, and
throwing start properties are excluded, and one record's start-date failure
never prevents the remaining records from being extracted. -/
theorem C1_extraction_excludes_unresolvable (data : List BasesEntry)
    (startProp : String) (endProp titleProp : Option String)
    (htitle : ∀ e ∈ data, ∀ tp, titleProp = some tp → (e.getValue tp).isOk) :
    ∃ l, updateCalendarEntries data startProp endProp titleProp = Except.ok l ∧
      (∀ c ∈ l, extractDate c.entry startProp = some c.startDate) ∧
      (∀ e ∈ data, (extractDate e startProp).isSome → ∃ c ∈ l, c.entry = e) ∧
      (∀ e, extractDate e startProp = none → ∀ c ∈ l, c.entry ≠ e) := by
  obtain ⟨l, hl, hb, hc⟩ := updateCalendarEntries_spec startProp endProp titleProp data htitle
  refine ⟨l, hl, hb, hc, ?_⟩
  intro e hnone c hcl heq
  have h4 := hb c hcl
  rw [heq, hnone] at h4
  exact Option.noConfusion h4

/-- A record with a resolvable start date. -/
def entryWithDate : BasesEntry :=
  ⟨"a.md", fun p =>
    if p = "start" then Except.ok (some (HostValue.dateValue (some ⟨2024, 2, 1, 9, 0, 0, 0⟩)))
    else Except.ok none⟩

/-- A record whose start property is absent. -/
def entryMissing : BasesEntry :=
  ⟨"b.md", fun _ => Except.ok none⟩

/-- A record whose start property is not date-typed. -/
def entryWrongType : BasesEntry :=
  ⟨"c.md", fun p =>
    if p = "start" then Except.ok (some (HostValue.strValue "hello")) else Except.ok none⟩

/-- A record whose property access throws. -/
def entryThrowing : BasesEntry :=
  ⟨"d.md", fun _ => Except.error ()⟩

theorem C1_extraction_excludes_unresolvable_witness :
    ∃ l, updateCalendarEntries [entryWithDate, entryMissing, entryWrongType, entryThrowing]
        "start" none none = Except.ok l ∧
      (∀ c ∈ l, extractDate c.entry "start" = some c.startDate) ∧
      ∃ c ∈ l, c.entry = entryWithDate := by
  obtain ⟨l, hl, hb, hc, hd⟩ := C1_extraction_excludes_unresolvable
    [entryWithDate, entryMissing, entryWrongType, entryThrowing] "start" none none
    (fun e he tp htp => Option.noConfusion htp)
  refine ⟨l, hl, hb, ?_⟩
  exact hc entryWithDate (by simp) (by simp [extractDate, entryWithDate])

/-! ## Claim C4: widget event all-day flag (`CalendarReactView` `events`) -/

/-- The end date used by the widget-event mapping: the entry's end, defaulting
to `new Date(start.getTime() + 60 * 60 * 1000)`. -/
def eventEndDate (startDate : JSDate) (endDate : Option JSDate) : JSDate :=
  match endDate with
  | some e => e
  | none => JSDate.fromTime (startDate.getTime + 60 * 60 * 1000)

/-- The `isAllDay` computation of the `events` `useMemo`: start and
(defaulted) end both have zero `getHours()` and `getMinutes()`. -/
def eventAllDay (startDate : JSDate) (endDate : Option JSDate) : Bool :=
  let e := eventEndDate startDate endDate
  startDate.hour == 0 && startDate.minute == 0 && e.hour == 0 && e.minute == 0

/-- The claim's "falls exactly on local midnight". -/
def atLocalMidnight (d : JSDate) : Prop :=
  d.hour = 0 ∧ d.minute = 0 ∧ d.second = 0 ∧ d.ms = 0

instance (d : JSDate) : Decidable (atLocalMidnight d) := by
  unfold atLocalMidnight
  infer_instance

/-- C4 as stated is false: an entry starting at 00:00:30 with end 00:00:45 is
flagged all-day although neither instant falls exactly on local midnight. -/
theorem C4_allDay_exact_midnight_counterexample :
    eventAllDay ⟨2024, 2, 1, 0, 0, 30, 0⟩ (some ⟨2024, 2, 1, 0, 0, 45, 0⟩) = true ∧
      ¬(atLocalMidnight ⟨2024, 2, 1, 0, 0, 30, 0⟩ ∧
        atLocalMidnight ⟨2024, 2, 1, 0, 0, 45, 0⟩) := by
  decide

/-- C4 amended: the widget event's allDay flag is true iff start and the
(possibly defaulted) end are at midnight to minute precision — their
`getHours()` and `getMinutes()` are zero, seconds and milliseconds being
ignored; since the defaulted end is start plus 60 minutes, an entry with no
end date is never all-day. -/
theorem C4_allDay_minute_precision (s : JSDate) (endDate : Option JSDate)
    (hvalid : s.Valid)
    (hepoch : epochCivilDays ≤ civilToDays s.year (s.month0 + 1) s.day) :
    eventAllDay s endDate = true ↔
      (s.hour = 0 ∧ s.minute = 0 ∧
        ∃ e, endDate = some e ∧ e.hour = 0 ∧ e.minute = 0) := by
  cases endDate with
  | some e =>
    simp only [eventAllDay, eventEndDate, Bool.and_eq_true, beq_iff_eq]
    constructor
    · rintro ⟨⟨⟨hh, hm⟩, h3⟩, h4⟩
      exact ⟨hh, hm, e, rfl, h3, h4⟩
    · rintro ⟨hh, hm, e2, he2, h3, h4⟩
      injection he2 with he2
      subst he2
      exact ⟨⟨⟨hh, hm⟩, h3⟩, h4⟩
  | none =>
    constructor
    · intro htrue
      exfalso
      unfold eventAllDay eventEndDate JSDate.fromTime at htrue
      simp only [Bool.and_eq_true, beq_iff_eq] at htrue
      obtain ⟨⟨⟨hh, hm⟩, hEh⟩, hEm⟩ := htrue
      obtain ⟨_, _, _, _, hhour, hminute, hsecond, hms⟩ := hvalid
      have hg : s.getTime = ((civilToDays s.year (s.month0 + 1) s.day : Int) -
          (epochCivilDays : Int)) * 86400000 + (s.hour : Int) * 3600000 +
          (s.minute : Int) * 60000 + (s.second : Int) * 1000 + (s.ms : Int) := rfl
      omega
    · rintro ⟨h1, h2, e, he, h3⟩
      exact Option.noConfusion he

theorem C4_allDay_minute_precision_witness :
    JSDate.Valid ⟨2024, 2, 1, 0, 0, 0, 0⟩ ∧
      eventAllDay ⟨2024, 2, 1, 0, 0, 0, 0⟩ (some ⟨2024, 2, 1, 0, 0, 0, 0⟩) = true :=
  ⟨by decide,
    (C4_allDay_minute_precision ⟨2024, 2, 1, 0, 0, 0, 0⟩ (some ⟨2024, 2, 1, 0, 0, 0, 0⟩)
      (by decide) (by decide)).mpr
      ⟨rfl, rfl, ⟨2024, 2, 1, 0, 0, 0, 0⟩, rfl, rfl, rfl⟩⟩

/-! ## Claim C8: event-creation note content (`NewEventService`) -/

/-- JavaScript `s.startsWith(pat)`. -/
def jsStartsWith (s pat : String) : Bool :=
  pat.data.isPrefixOf s.data

/-- Scan for the first occurrence of `pat` at or after position `i`. -/
def indexOfFromAux (hay pat : List Char) : Nat → Nat → Option Nat
  | 0, _ => none
  | fuel + 1, i =>
    if i ≤ hay.length then
      if pat.isPrefixOf (hay.drop i) then some i else indexOfFromAux hay pat fuel (i + 1)
    else none

/-- JavaScript `s.indexOf(pat, start)`, with `none` for `-1`. -/
def jsIndexOfFrom (s pat : String) (start : Nat) : Option Nat :=
  indexOfFromAux s.data pat.data (s.data.length + 1) start

/-- JavaScript `s.slice(a, b)` for in-range arguments. -/
def jsSlice (s : String) (a b : Nat) : String :=
  String.mk ((s.data.drop a).take (b - a))

/-- JavaScript `s.slice(a)` for in-range `a`. -/
def jsSliceFrom (s : String) (a : Nat) : String :=
  String.mk (s.data.drop a)

/-- Modelled from the spec: the host application's `parseYaml`, which is out
of scope, restricted to the flat string maps this plugin reads and writes (one
`key: value` binding per line; later duplicates win as in a JavaScript
object). -/
def parseYamlM (s : String) : List (String × String) :=
  ((jsSplit (fun c => c = '\n') s).filterMap (fun line =>
    let keyPart := line.data.takeWhile (fun c => c ≠ ':')
    if keyPart.length = line.data.length then none
    else
      let key := jsTrim (String.mk keyPart)
      let v := jsTrim (String.mk (line.data.drop (keyPart.length + 1)))
      if key = "" then none else some (key, v))).foldl
    (fun m kv => setKey m kv.1 kv.2) []

/-- Modelled from the spec: the host application's `stringifyYaml` on a flat
string map: one `key: value` line per binding. -/
def stringifyYamlM (m : List (String × String)) : String :=
  String.join (m.map (fun kv => kv.1 ++ ": " ++ kv.2 ++ "\n"))

/-- JavaScript `Object.assign(base, fields)`: assign every binding of
`fields`, in order, over `base`. -/
def objAssign (base fields : List (String × String)) : List (String × String) :=
  fields.foldl (fun m kv => setKey m kv.1 kv.2) base

/-- `NewEventService.noteField`: the parsed property name for note-typed
properties, the raw property id (modelled as `type.name`) otherwise. -/
def noteFieldNES (propId : Option PropIdM) : Option String :=
  match propId with
  | none => none
  | some p => if p.ptype = "note" then some p.pname else some (p.ptype ++ "." ++ p.pname)

/-- `NewEventService.isAllDay`: both endpoints have zero hours and minutes. -/
def isAllDayNES (start endDate : JSDate) : Bool :=
  start.hour == 0 && start.minute == 0 && endDate.hour == 0 && endDate.minute == 0

/-- `NewEventService.buildFrontmatter`: title, bound start/end dates formatted
for frontmatter, and the all-day flag (field defaulting to `allDay`). -/
def buildFrontmatter (startProperty endProperty allDayProperty : Option PropIdM)
    (title : String) (start endDate : JSDate) : List (String × String) :=
  let base : List (String × String) := [("title", title)]
  let withStart :=
    match noteFieldNES startProperty with
    | some sf => setKey base sf (formatDateTimeForFrontmatter start)
    | none => base
  let withEnd :=
    match noteFieldNES endProperty with
    | some ef => setKey withStart ef (formatDateTimeForFrontmatter endDate)
    | none => withStart
  let adf := (noteFieldNES allDayProperty).getD "allDay"
  setKey withEnd adf (if isAllDayNES start endDate then "true" else "false")

/-- `NewEventService.buildNoteContent`: merge the computed fields into an
existing template frontmatter block, or synthesize a fresh block before the
raw template text. -/
def buildNoteContent (templateContent : Option String)
    (fields : List (String × String)) : String :=
  let tpl := templateContent.getD ""
  let trimmed := jsTrimStart tpl
  if jsStartsWith trimmed "---" then
    match jsIndexOfFrom trimmed "---" 3 with
    | some epos =>
      let fmRaw := jsTrim (jsSlice trimmed 3 epos)
      let body := jsTrimStart (jsSliceFrom trimmed (epos + 3))
      let fmObj := if fmRaw = "" then [] else parseYamlM fmRaw
      "---\n" ++ stringifyYamlM (objAssign fmObj fields) ++ "---\n\n" ++ body
    | none => "---\n" ++ stringifyYamlM fields ++ "---\n\n" ++ tpl
  else "---\n" ++ stringifyYamlM fields ++ "---\n\n" ++ tpl

theorem lookupKey_append {α : Type} (l1 l2 : List (String × α)) (k : String) :
    lookupKey (l1 ++ l2) k =
      match lookupKey l1 k with
      | some v => some v
      | none => lookupKey l2 k := by
  induction l1 with
  | nil => rfl
  | cons p rest ih =>
    by_cases hp : p.1 = k <;> simp [lookupKey, hp, ih]

theorem lookupKey_objAssign (fields : List (String × String)) :
    ∀ (base : List (String × String)) (k : String),
      lookupKey (objAssign base fields) k =
        match lookupKey fields.reverse k with
        | some v => some v
        | none => lookupKey base k := by
  induction fields with
  | nil => intro base k; rfl
  | cons f fs ih =>
    intro base k
    show lookupKey (objAssign (setKey base f.1 f.2) fs) k = _
    rw [ih]
    rw [show (f :: fs).reverse = fs.reverse ++ [f] from by simp, lookupKey_append]
    cases hre : lookupKey fs.reverse k with
    | some v => rfl
    | none =>
      dsimp only
      by_cases hf : f.1 = k
      · subst hf
        rw [lookupKey_setKey_self]
        simp [lookupKey]
      · rw [lookupKey_setKey_ne _ _ _ _ hf]
        simp [lookupKey, hf]

theorem lookupKey_eq_none_of_not_mem {α : Type} (m : List (String × α)) (k : String)
    (h : k ∉ m.map Prod.fst) : lookupKey m k = none := by
  induction m with
  | nil => rfl
  | cons p rest ih =>
    simp only [List.map_cons, List.mem_cons, not_or] at h
    simp only [lookupKey, Ne.symm h.1, if_false]
    exact ih h.2

theorem lookupKey_reverse {α : Type} (m : List (String × α))
    (h : (m.map Prod.fst).Nodup) (k : String) :
    lookupKey m.reverse k = lookupKey m k := by
  induction m with
  | nil => rfl
  | cons p rest ih =>
    simp only [List.map_cons, List.nodup_cons] at h
    rw [show (p :: rest).reverse = rest.reverse ++ [p] from by simp, lookupKey_append]
    by_cases hp : p.1 = k
    · have hnotin : k ∉ rest.map Prod.fst := by rw [← hp]; exact h.1
      cases hre : lookupKey rest.reverse k with
      | some v =>
        rw [ih h.2, lookupKey_eq_none_of_not_mem rest k hnotin] at hre
        exact Option.noConfusion hre
      | none =>
        dsimp only
        simp [lookupKey, hp]
    · cases hre : lookupKey rest.reverse k with
      | some v =>
        dsimp only
        rw [ih h.2] at hre
        simp [lookupKey, hp, hre]
      | none =>
        dsimp only
        rw [ih h.2] at hre
        simp [lookupKey, hp, hre]

theorem setKey_map_fst {α : Type} (m : List (String × α)) (k : String) (v : α) :
    (setKey m k v).map Prod.fst =
      if m.any (fun p => p.1 = k) then m.map Prod.fst else m.map Prod.fst ++ [k] := by
  unfold setKey
  by_cases hany : m.any (fun p => p.1 = k)
  · rw [if_pos hany, if_pos hany, List.map_map]
    apply List.map_congr_left
    intro p hp
    by_cases hpk : p.1 = k
    · simp [hpk]
    · simp [hpk]
  · rw [if_neg hany, if_neg hany]
    simp

theorem setKey_keys_nodup {α : Type} (m : List (String × α)) (k : String) (v : α)
    (h : (m.map Prod.fst).Nodup) : ((setKey m k v).map Prod.fst).Nodup := by
  rw [setKey_map_fst]
  by_cases hany : m.any (fun p => p.1 = k)
  · rw [if_pos hany]; exact h
  · rw [if_neg hany]
    have hnotin : k ∉ m.map Prod.fst := by
      intro habs
      apply hany
      rcases List.mem_map.mp habs with ⟨p, hp, hpk⟩
      exact List.any_eq_true.mpr ⟨p, hp, by simp [hpk]⟩
    simp [List.nodup_append, h, hnotin]

theorem buildFrontmatter_keys_nodup (startProperty endProperty allDayProperty : Option PropIdM)
    (title : String) (start endDate : JSDate) :
    ((buildFrontmatter startProperty endProperty allDayProperty title start endDate).map
      Prod.fst).Nodup := by
  unfold buildFrontmatter
  apply setKey_keys_nodup
  cases noteFieldNES endProperty with
  | some ef =>
    dsimp only
    apply setKey_keys_nodup
    cases noteFieldNES startProperty with
    | some sf => dsimp only; apply setKey_keys_nodup; simp
    | none => simp
  | none =>
    dsimp only
    cases noteFieldNES startProperty with
    | some sf => dsimp only; apply setKey_keys_nodup; simp
    | none => simp

/-- C8: when the template (after leading whitespace) begins with a closed
frontmatter block, the created content is that block's object with the
computed fields assigned over it (computed fields win, all other template keys
keep their template values) followed by the template body; otherwise it is a
synthesized block holding exactly the computed fields followed by the raw
template text. -/
theorem C8_buildNoteContent_merges_template (tplContent : Option String)
    (startProperty endProperty allDayProperty : Option PropIdM) (title : String)
    (start endDate : JSDate) :
    (∀ epos, jsStartsWith (jsTrimStart (tplContent.getD "")) "---" = true →
      jsIndexOfFrom (jsTrimStart (tplContent.getD "")) "---" 3 = some epos →
      buildNoteContent tplContent
          (buildFrontmatter startProperty endProperty allDayProperty title start endDate) =
        "---\n" ++
          stringifyYamlM (objAssign
            (if jsTrim (jsSlice (jsTrimStart (tplContent.getD "")) 3 epos) = "" then []
              else parseYamlM (jsTrim (jsSlice (jsTrimStart (tplContent.getD "")) 3 epos)))
            (buildFrontmatter startProperty endProperty allDayProperty title start endDate)) ++
          "---\n\n" ++ jsTrimStart (jsSliceFrom (jsTrimStart (tplContent.getD "")) (epos + 3))) ∧
    (∀ tfm k v,
      lookupKey (buildFrontmatter startProperty endProperty allDayProperty title start
        endDate) k = some v →
      lookupKey (objAssign tfm (buildFrontmatter startProperty endProperty allDayProperty
        title start endDate)) k = some v) ∧
    (∀ tfm k,
      lookupKey (buildFrontmatter startProperty endProperty allDayProperty title start
        endDate) k = none →
      lookupKey (objAssign tfm (buildFrontmatter startProperty endProperty allDayProperty
        title start endDate)) k = lookupKey tfm k) ∧
    ((jsStartsWith (jsTrimStart (tplContent.getD "")) "---" = false ∨
        jsIndexOfFrom (jsTrimStart (tplContent.getD "")) "---" 3 = none) →
      buildNoteContent tplContent
          (buildFrontmatter startProperty endProperty allDayProperty title start endDate) =
        "---\n" ++
          stringifyYamlM (buildFrontmatter startProperty endProperty allDayProperty title
            start endDate) ++ "---\n\n" ++ tplContent.getD "") := by
  have hnodup := buildFrontmatter_keys_nodup startProperty endProperty allDayProperty
    title start endDate
  refine ⟨?_, ?_, ?_, ?_⟩
  · intro epos h1 h2
    unfold buildNoteContent
    simp only [h1, if_true, h2]
  · intro tfm k v h
    rw [lookupKey_objAssign, lookupKey_reverse _ hnodup, h]
  · intro tfm k h
    rw [lookupKey_objAssign, lookupKey_reverse _ hnodup, h]
  · intro h
    rcases h with hf | hn
    · unfold buildNoteContent
      simp only [hf]
      simp
    · unfold buildNoteContent
      by_cases hw : jsStartsWith (jsTrimStart (tplContent.getD "")) "---" = true
      · simp only [hw, if_true, hn]
      · simp only [Bool.not_eq_true] at hw
        simp only [hw]
        simp

theorem C8_buildNoteContent_merges_template_witness :
    buildNoteContent (some "---\na: 1\ntitle: Old\n---\nBody")
        (buildFrontmatter none none none "New" ⟨2024, 2, 1, 0, 0, 0, 0⟩
          ⟨2024, 2, 1, 0, 0, 0, 0⟩) =
      "---\n" ++
        stringifyYamlM (objAssign (parseYamlM "a: 1\ntitle: Old")
          (buildFrontmatter none none none "New" ⟨2024, 2, 1, 0, 0, 0, 0⟩
            ⟨2024, 2, 1, 0, 0, 0, 0⟩)) ++ "---\n\n" ++ "Body" ∧
    lookupKey (objAssign (parseYamlM "a: 1\ntitle: Old")
      (buildFrontmatter none none none "New" ⟨2024, 2, 1, 0, 0, 0, 0⟩
        ⟨2024, 2, 1, 0, 0, 0, 0⟩)) "title" = some "New" ∧
    lookupKey (objAssign (parseYamlM "a: 1\ntitle: Old")
      (buildFrontmatter none none none "New" ⟨2024, 2, 1, 0, 0, 0, 0⟩
        ⟨2024, 2, 1, 0, 0, 0, 0⟩)) "a" = some "1" := by
  have h := C8_buildNoteContent_merges_template (some "---\na: 1\ntitle: Old\n---\nBody")
    none none none "New" ⟨2024, 2, 1, 0, 0, 0, 0⟩ ⟨2024, 2, 1, 0, 0, 0, 0⟩
  refine ⟨?_, ?_, ?_⟩
  · rw [h.1 20 (by decide) (by decide)]
    decide
  · exact h.2.1 (parseYamlM "a: 1\ntitle: Old") "title" "New" (by decide)
  · rw [h.2.2.1 (parseYamlM "a: 1\ntitle: Old") "a" (by decide)]
    decide

/-! ## Claim C3: `NewEventService.buildUniquePath` -/

/-- Modelled from the spec: the host application's `normalizePath` is an
out-of-scope collaborator; it is modelled as the identity on the
already-normal paths this service assembles. -/
def normalizePathM (s : String) : String :=
  s

/-- The `YYYY-MM-DD` date suffix of the dated fallback file name. -/
def dateSuffix (date : JSDate) : String :=
  natToString date.year ++ "-" ++ pad2 (date.month0 + 1) ++ "-" ++ pad2 date.day

/-- The fallback paths tried once `Title.md` exists: index 0 is
`Title SUFFIX.md`, index `k ≥ 1` is `Title SUFFIX k.md`. -/
def candidatePath (folderPath title suffix : String) : Nat → String
  | 0 => normalizePathM (folderPath ++ "/" ++ title ++ " " ++ suffix ++ ".md")
  | Nat.succ k =>
    normalizePathM (folderPath ++ "/" ++ title ++ " " ++ suffix ++ " " ++
      natToString (k + 1) ++ ".md")

/-- The `while (getAbstractFileByPath(path))` loop: return the first candidate
at or after index `i` naming no existing file; fuel `vault.length + 1` always
suffices. -/
def searchFree (vault : List String) (cand : Nat → String) : Nat → Nat → String
  | 0, i => cand i
  | fuel + 1, i => if cand i ∈ vault then searchFree vault cand fuel (i + 1) else cand i

/-- `NewEventService.buildUniquePath`, with the vault's existing file paths
passed explicitly (a `getAbstractFileByPath` hit is membership in `vault`). -/
def buildUniquePath (vault : List String) (folderPath title : String)
    (date : JSDate) : String :=
  let base := normalizePathM (folderPath ++ "/" ++ title ++ ".md")
  if base ∈ vault then
    searchFree vault (candidatePath folderPath title (dateSuffix date))
      (vault.length + 1) 0
  else base

theorem one_le_length_natToString (n : Nat) : 1 ≤ (natToString n).length := by
  unfold natToString
  by_cases h0 : n = 0
  · subst h0
    decide
  · simp only [h0, if_false]
    have hne : digitsRev n ≠ [] := by
      intro habs
      have := ofDigitsRev_digitsRev n
      rw [habs] at this
      simp [ofDigitsRev] at this
      omega
    show 1 ≤ ((digitsRev n).reverse.map Nat.digitChar).length
    rw [List.length_map, List.length_reverse]
    cases hd : digitsRev n with
    | nil => exact absurd hd hne
    | cons x t => simp

theorem candidatePath_injective (folderPath title suffix : String) :
    Function.Injective (candidatePath folderPath title suffix) := by
  intro a b h
  match a, b with
  | 0, 0 => rfl
  | 0, Nat.succ k =>
    exfalso
    have hlen := congrArg String.length h
    unfold candidatePath normalizePathM at hlen
    simp only [String.length_append] at hlen
    have := one_le_length_natToString (k + 1)
    have hsp : (" " : String).length = 1 := rfl
    omega
  | Nat.succ k, 0 =>
    exfalso
    have hlen := congrArg String.length h
    unfold candidatePath normalizePathM at hlen
    simp only [String.length_append] at hlen
    have := one_le_length_natToString (k + 1)
    have hsp : (" " : String).length = 1 := rfl
    omega
  | Nat.succ j, Nat.succ k =>
    have hdata := congrArg String.data h
    unfold candidatePath normalizePathM at hdata
    simp only [String.data_append, List.append_assoc] at hdata
    have h1 := List.append_cancel_left hdata
    have h2 := List.append_cancel_left h1
    have h3 := List.append_cancel_left h2
    have h4 := List.append_cancel_left h3
    have h5 := List.append_cancel_left h4
    have h6 := List.append_cancel_left h5
    have h7 := List.append_cancel_right h6
    have h8 : natToString (j + 1) = natToString (k + 1) := String.ext h7
    have := natToString_injective h8
    omega

theorem exists_candidate_not_mem (vault : List String) (cand : Nat → String)
    (hinj : Function.Injective cand) :
    ∃ j, j < vault.length + 1 ∧ cand j ∉ vault := by
  by_contra h
  push_neg at h
  have hsub : ((List.range (vault.length + 1)).map cand).toFinset ⊆ vault.toFinset := by
    intro x hx
    rw [List.mem_toFinset] at hx ⊢
    rcases List.mem_map.mp hx with ⟨j, hj, rfl⟩
    exact h j (List.mem_range.mp hj)
  have hnodup : ((List.range (vault.length + 1)).map cand).Nodup :=
    (List.nodup_range _).map hinj
  have hcard1 : ((List.range (vault.length + 1)).map cand).toFinset.card =
      vault.length + 1 := by
    rw [List.toFinset_card_of_nodup hnodup, List.length_map, List.length_range]
  have hcard2 := List.toFinset_card_le vault
  have := Finset.card_le_card hsub
  omega

theorem searchFree_spec (vault : List String) (cand : Nat → String) :
    ∀ fuel i, (∃ j, j < fuel ∧ cand (i + j) ∉ vault) →
      ∃ j, j < fuel ∧ searchFree vault cand fuel i = cand (i + j) ∧
        cand (i + j) ∉ vault ∧ ∀ m, m < j → cand (i + m) ∈ vault := by
  intro fuel
  induction fuel with
  | zero =>
    rintro i ⟨j, hj, _⟩
    omega
  | succ f ih =>
    rintro i ⟨j, hj, hfree⟩
    by_cases hmem : cand i ∈ vault
    · have hj0 : j ≠ 0 := by
        rintro rfl
        rw [Nat.add_zero] at hfree
        exact hfree hmem
      obtain ⟨j2, hj2, hs, hfree2, hfirst⟩ := ih (i + 1)
        ⟨j - 1, by omega, by rw [show i + 1 + (j - 1) = i + j by omega]; exact hfree⟩
      refine ⟨j2 + 1, by omega, ?_, ?_, ?_⟩
      · show searchFree vault cand (f + 1) i = _
        unfold searchFree
        rw [if_pos hmem, hs]
        congr 1
        omega
      · rw [show i + (j2 + 1) = i + 1 + j2 by omega]
        exact hfree2
      · intro m hm
        cases m with
        | zero => simpa using hmem
        | succ m2 =>
          rw [show i + (m2 + 1) = i + 1 + m2 by omega]
          exact hfirst m2 (by omega)
    · refine ⟨0, by omega, ?_, ?_, by omega⟩
      · show searchFree vault cand (f + 1) i = _
        unfold searchFree
        rw [if_neg hmem, Nat.add_zero]
      · rw [Nat.add_zero]
        exact hmem

/-- C3: the event-creation path builder returns `Title.md` when it is free;
when `Title.md` exists it tries the dated `Title YYYY-MM-DD.md` (built from the
supplied creation date), then appends the counters 1, 2, ... returning the
first free candidate; the returned path never names an existing file. -/
theorem C3_buildUniquePath_unique (vault : List String) (folderPath title : String)
    (date : JSDate) :
    buildUniquePath vault folderPath title date ∉ vault ∧
    (normalizePathM (folderPath ++ "/" ++ title ++ ".md") ∉ vault →
      buildUniquePath vault folderPath title date =
        normalizePathM (folderPath ++ "/" ++ title ++ ".md")) ∧
    (normalizePathM (folderPath ++ "/" ++ title ++ ".md") ∈ vault →
      candidatePath folderPath title (dateSuffix date) 0 ∉ vault →
      buildUniquePath vault folderPath title date =
        candidatePath folderPath title (dateSuffix date) 0) ∧
    (normalizePathM (folderPath ++ "/" ++ title ++ ".md") ∈ vault →
      ∃ j, buildUniquePath vault folderPath title date =
          candidatePath folderPath title (dateSuffix date) j ∧
        ∀ m, m < j → candidatePath folderPath title (dateSuffix date) m ∈ vault) := by
  have hinj := candidatePath_injective folderPath title (dateSuffix date)
  obtain ⟨j0, hj0, hfree0⟩ :=
    exists_candidate_not_mem vault (candidatePath folderPath title (dateSuffix date)) hinj
  have hex : ∃ j, j < vault.length + 1 ∧
      candidatePath folderPath title (dateSuffix date) (0 + j) ∉ vault :=
    ⟨j0, hj0, by rw [Nat.zero_add]; exact hfree0⟩
  obtain ⟨j, hj, heq, hfree, hfirst⟩ :=
    searchFree_spec vault (candidatePath folderPath title (dateSuffix date))
      (vault.length + 1) 0 hex
  refine ⟨?_, ?_, ?_, ?_⟩
  · unfold buildUniquePath
    by_cases hbase : normalizePathM (folderPath ++ "/" ++ title ++ ".md") ∈ vault
    · rw [if_pos hbase, heq]
      exact hfree
    · rw [if_neg hbase]
      exact hbase
  · intro hbase
    unfold buildUniquePath
    rw [if_neg hbase]
  · intro hbase h0
    unfold buildUniquePath
    rw [if_pos hbase]
    show searchFree vault (candidatePath folderPath title (dateSuffix date))
      (vault.length + 1) 0 = _
    unfold searchFree
    rw [if_neg h0]
  · intro hbase
    refine ⟨j, ?_, ?_⟩
    · unfold buildUniquePath
      rw [if_pos hbase, heq, Nat.zero_add]
    · intro m hm
      have := hfirst m hm
      rwa [Nat.zero_add] at this

theorem C3_buildUniquePath_unique_witness :
    buildUniquePath ["F/Meeting.md", "F/Meeting 2024-10-11.md",
        "F/Meeting 2024-10-11 1.md"] "F" "Meeting" ⟨2024, 9, 11, 0, 0, 0, 0⟩ ∉
      (["F/Meeting.md", "F/Meeting 2024-10-11.md", "F/Meeting 2024-10-11 1.md"] :
        List String) ∧
    (∃ j, buildUniquePath ["F/Meeting.md", "F/Meeting 2024-10-11.md",
        "F/Meeting 2024-10-11 1.md"] "F" "Meeting" ⟨2024, 9, 11, 0, 0, 0, 0⟩ =
        candidatePath "F" "Meeting" (dateSuffix ⟨2024, 9, 11, 0, 0, 0, 0⟩) j ∧
      ∀ m, m < j →
        candidatePath "F" "Meeting" (dateSuffix ⟨2024, 9, 11, 0, 0, 0, 0⟩) m ∈
          (["F/Meeting.md", "F/Meeting 2024-10-11.md", "F/Meeting 2024-10-11 1.md"] :
            List String)) ∧
    buildUniquePath ["F/Meeting.md", "F/Meeting 2024-10-11.md",
        "F/Meeting 2024-10-11 1.md"] "F" "Meeting" ⟨2024, 9, 11, 0, 0, 0, 0⟩ =
      "F/Meeting 2024-10-11 2.md" := by
  have h := C3_buildUniquePath_unique ["F/Meeting.md", "F/Meeting 2024-10-11.md",
    "F/Meeting 2024-10-11 1.md"] "F" "Meeting" ⟨2024, 9, 11, 0, 0, 0, 0⟩
  exact ⟨h.1, h.2.2.2 (by decide), by decide⟩
